import Mathlib

/-!
# MemoVault memory-store verification

A shallow embedding of the MemoVault pluggable memory store
(`src/memovault/memory/{item,simple,vector}.py` and
`src/memovault/vecdb/qdrant.py`) together with proofs about the
behaviour of its two backends.

Modelling conventions:

* Timestamps (`created_at` / `updated_at`, ISO-8601 strings produced by
  `datetime.now().isoformat()` in the source) are modelled as natural
  numbers; the ISO format is order-isomorphic to time for a fixed clock.
* Python floats are modelled as real numbers for the BM25 scores
  (`rank_bm25` uses `math.log`) and as rationals for the vector-store
  similarity scores.  Lean's total division (`x / 0 = 0`) replaces IEEE
  division; every fact proved below only depends on expressions whose
  exact-real and floating evaluations agree in sign.
* `MemoryItem` ids are plain strings; the uuid-format validator of
  `item.py` is not modelled (all concrete ids used below are canonical
  UUID strings, so they pass the source validator).
* The external embedder and the similarity metric of the external
  Qdrant engine enter as explicit function parameters, mirroring the
  spec's treatment of them as injected capabilities.
-/

namespace MemoVault

/-- Model of `MemoryMetadata` (`memory/item.py`): the recognised keys.
`created_at` / `updated_at` are modelled as natural-number clock values.
The `extra="allow"` side channel carries no behaviour used by the
backends and is omitted. -/
structure MemoryMetadata where
  type : Option String
  source : Option String
  tags : Option (List String)
  created_at : Nat
  updated_at : Nat
deriving DecidableEq

/-- Model of `MemoryItem` (`memory/item.py`): id, text, metadata. -/
structure MemoryItem where
  id : String
  memory : String
  metadata : MemoryMetadata
deriving DecidableEq

/-- Model of `memory.id = memory_id` — the id-overwrite performed by both
`update` implementations before storing. -/
def MemoryItem.setId (m : MemoryItem) (memory_id : String) : MemoryItem :=
  { m with id := memory_id }

/-! ## Tokenizer

`simple.py` tokenizes with `text.lower().split()`: case folding followed
by splitting on whitespace runs, dropping empty tokens. -/

/-- Emit the (reversed) accumulated token, if non-empty. -/
def flushTok (cur : List Char) : List String :=
  if cur.isEmpty then [] else [String.mk cur.reverse]

/-- Split a character list on whitespace runs, Python `str.split()` style. -/
def splitWsAux : List Char → List Char → List String
  | [], cur => flushTok cur
  | c :: cs, cur =>
    if c.isWhitespace then flushTok cur ++ splitWsAux cs []
    else splitWsAux cs (c :: cur)

/-- Model of `text.lower().split()` from `SimpleMemory.search`. -/
def tokenize (s : String) : List String :=
  splitWsAux (s.data.map Char.toLower) []

/-! ## BM25 (the `rank_bm25.BM25Okapi` dependency)

`SimpleMemory.search` delegates scoring to `BM25Okapi(corpus)` with the
library defaults `k1 = 1.5`, `b = 0.75`, `epsilon = 0.25`.  The
definitions below transcribe the published `rank_bm25` algorithm
(document frequencies, the Okapi idf with its negative-idf floor, and
`get_scores`) over the reals. -/

def bm25_k1 : ℝ := 1.5

def bm25_b : ℝ := 0.75

def bm25_epsilon : ℝ := 0.25

/-- Model of `corpus_size` — number of documents. -/
def corpusSize (corpus : List (List String)) : ℕ := corpus.length

/-- Model of `nd[w]` — number of documents containing the word `w`. -/
def ndocs (corpus : List (List String)) (w : String) : ℕ :=
  corpus.countP (fun d => d.contains w)

/-- The key set of the idf dictionary: the distinct words of the corpus. -/
def corpusWords (corpus : List (List String)) : List String :=
  corpus.flatten.dedup

/-- Model of `math.log(corpus_size - freq + 0.5) - math.log(freq + 0.5)`. -/
noncomputable def idfRaw (corpus : List (List String)) (w : String) : ℝ :=
  Real.log ((corpusSize corpus : ℝ) - (ndocs corpus w : ℝ) + 0.5) -
    Real.log ((ndocs corpus w : ℝ) + 0.5)

/-- Model of `average_idf = idf_sum / len(self.idf)` (sum over the raw idfs). -/
noncomputable def averageIdf (corpus : List (List String)) : ℝ :=
  ((corpusWords corpus).map (idfRaw corpus)).sum /
    ((corpusWords corpus).length : ℝ)

/-- The stored idf: words with negative raw idf are floored to
`epsilon * average_idf`. -/
noncomputable def idfOkapi (corpus : List (List String)) (w : String) : ℝ :=
  if idfRaw corpus w < 0 then bm25_epsilon * averageIdf corpus
  else idfRaw corpus w

/-- Model of `self.idf.get(q) or 0`: missing words — and a stored value of
exactly `0.0`, which Python's `or` also maps to `0` — give `0`. -/
noncomputable def idfLookup (corpus : List (List String)) (w : String) : ℝ :=
  if corpus.flatten.contains w then idfOkapi corpus w else 0

/-- Model of `avgdl` — average document length. -/
noncomputable def avgdl (corpus : List (List String)) : ℝ :=
  (((corpus.map List.length).sum : ℕ) : ℝ) / (corpusSize corpus : ℝ)

/-- The per-term factor
`q_freq * (k1 + 1) / (q_freq + k1 * (1 - b + b * doc_len / avgdl))`. -/
noncomputable def termWeight (corpus : List (List String))
    (docTokens : List String) (w : String) : ℝ :=
  (docTokens.count w : ℝ) * (bm25_k1 + 1) /
    ((docTokens.count w : ℝ) +
      bm25_k1 * (1 - bm25_b + bm25_b * (docTokens.length : ℝ) / avgdl corpus))

/-- Model of `get_scores(query)[j]` — a document's BM25 score against the
tokenized query. -/
noncomputable def bm25Score (corpus : List (List String))
    (queryTokens docTokens : List String) : ℝ :=
  (queryTokens.map (fun q => idfLookup corpus q * termWeight corpus docTokens q)).sum

/-! ## The lexical backend (`SimpleMemory`, `memory/simple.py`)

State: the `self.memories` list.  The Python list of dicts round-trips
with `MemoryItem` one-for-one, so the state is a list of items. -/

structure SimpleMemory where
  memories : List MemoryItem
deriving DecidableEq

/-- The ids of the active record set, in storage order. -/
def SimpleMemory.ids (s : SimpleMemory) : List String :=
  s.memories.map (·.id)

/-- Model of `SimpleMemory.add`: append each record whose id is not already
present (the check runs against the growing list, so in-batch
duplicates are also skipped); return the appended ids in order. -/
def SimpleMemory.add : SimpleMemory → List MemoryItem → List String × SimpleMemory
  | s, [] => ([], s)
  | s, m :: rest =>
    if (s.memories.map (·.id)).contains m.id then SimpleMemory.add s rest
    else
      let step := SimpleMemory.add ⟨s.memories ++ [m]⟩ rest
      (m.id :: step.1, step.2)

/-- Model of `SimpleMemory.get`: first record with the given id, else `None`. -/
def SimpleMemory.get (s : SimpleMemory) (memory_id : String) : Option MemoryItem :=
  s.memories.find? (fun m => m.id == memory_id)

/-- Model of `SimpleMemory.get_all`. -/
def SimpleMemory.get_all (s : SimpleMemory) : List MemoryItem :=
  s.memories

/-- The update loop: replace the first record whose id matches and stop. -/
def updateList (l : List MemoryItem) (memory_id : String) (m : MemoryItem) :
    List MemoryItem :=
  match l with
  | [] => []
  | x :: xs =>
    if x.id = memory_id then m :: xs else x :: updateList xs memory_id m

/-- Model of `SimpleMemory.update`: overwrite the supplied record's id with
`memory_id`, then replace in place; a missing id leaves the state
unchanged (logged warning only). -/
def SimpleMemory.update (s : SimpleMemory) (memory_id : String)
    (memory : MemoryItem) : SimpleMemory :=
  ⟨updateList s.memories memory_id (memory.setId memory_id)⟩

/-- Model of `SimpleMemory.delete`: drop every record whose id is listed. -/
def SimpleMemory.delete (s : SimpleMemory) (memory_ids : List String) :
    SimpleMemory :=
  ⟨s.memories.filter (fun m => !(memory_ids.contains m.id))⟩

/-- Model of `SimpleMemory.delete_all`. -/
def SimpleMemory.delete_all (_s : SimpleMemory) : SimpleMemory := ⟨[]⟩

/-- Model of `SimpleMemory.count`. -/
def SimpleMemory.count (s : SimpleMemory) : ℕ := s.memories.length

/-- The snapshot file seen by `load`: missing, unparseable
(`json.JSONDecodeError`), or a parsed record array. -/
inductive SnapshotFile where
  | absent
  | malformed
  | wellformed (items : List MemoryItem)

/-- What a `load` call gives back to its caller: the resulting state and
the error surfaced to the caller (`none` = the call returned `None`
normally, no exception escaped and no error value was produced). -/
structure SLoadResult where
  state : SimpleMemory
  err : Option String
deriving DecidableEq

/-- The merge loop of `SimpleMemory.load`: append each snapshot record
whose id is not already present. -/
def loadMerge (acc : List MemoryItem) : List MemoryItem → List MemoryItem
  | [] => acc
  | m :: rest =>
    if (acc.map (·.id)).contains m.id then loadMerge acc rest
    else loadMerge (acc ++ [m]) rest

/-- Model of `SimpleMemory.load`: a missing file logs a warning and returns; a
`json.JSONDecodeError` is caught, logged and the function returns
normally (the `except` blocks re-raise nothing); a parsed array is
merged with duplicate ids skipped. -/
def SimpleMemory.load (s : SimpleMemory) (file : SnapshotFile) : SLoadResult :=
  match file with
  | .absent => ⟨s, none⟩
  | .malformed => ⟨s, none⟩
  | .wellformed items => ⟨⟨loadMerge s.memories items⟩, none⟩

/-- Model of `SimpleMemory.dump`: serialize the full record list. -/
def SimpleMemory.dump (s : SimpleMemory) : SnapshotFile :=
  .wellformed s.memories

/-- The sort key of `scored.sort(key=lambda x: x[1], reverse=True)`:
descending by score.  Python's sort is stable, which
`List.insertionSort` reproduces. -/
def scoreGeR : MemoryItem × ℝ → MemoryItem × ℝ → Prop :=
  fun x y => y.2 ≤ x.2

noncomputable instance : DecidableRel scoreGeR :=
  fun x y => Real.decidableLE y.2 x.2

instance : IsTotal (MemoryItem × ℝ) scoreGeR :=
  ⟨fun x y => le_total y.2 x.2⟩

instance : IsTrans (MemoryItem × ℝ) scoreGeR :=
  ⟨fun _ _ _ h h2 => le_trans h2 h⟩

/-- The `scored` list of `SimpleMemory.search`: each record paired with
its BM25 score, keeping only strictly positive scores. -/
noncomputable def SimpleMemory.scoredList (s : SimpleMemory) (query : String) :
    List (MemoryItem × ℝ) :=
  let corpus := s.memories.map (fun m => tokenize m.memory)
  let query_tokens := tokenize query
  let scores := corpus.map (fun d => bm25Score corpus query_tokens d)
  (s.memories.zip scores).filter (fun p => decide (0 < p.2))

/-- The ranked pipeline of `SimpleMemory.search` before the final
projection: early-return on an empty store, stable descending sort,
truncation to `top_k`. -/
noncomputable def SimpleMemory.searchRanked (s : SimpleMemory) (query : String)
    (top_k : ℕ) : List (MemoryItem × ℝ) :=
  if s.memories.isEmpty then []
  else (List.insertionSort scoreGeR (s.scoredList query)).take top_k

/-- A metadata filter as accepted by the semantic backend: key/value
pairs, all of which must match (`Filter(must=...)`). -/
abbrev MetaFilter := List (String × String)

/-- Model of `SimpleMemory.search(query, top_k, **kwargs)`: kwargs — including a
`filter` — are accepted and ignored by the body. -/
noncomputable def SimpleMemory.search (s : SimpleMemory) (query : String)
    (top_k : ℕ) (_filterKw : Option MetaFilter) : List MemoryItem :=
  (s.searchRanked query top_k).map Prod.fst

/-! ## The vector store (`vecdb/qdrant.py` over the external Qdrant engine)

`QdrantVecDB` is a thin wrapper around the external `qdrant_client`;
the engine itself is out of scope (spec §1), so the collection is
modelled from the spec's VectorStore capability: a keyed store of
`(id, vector, payload)` triples with upsert semantics, equality-only
payload filters and ranked search under an injected similarity
metric. -/

/-- A stored point of the collection. -/
structure QPoint where
  id : String
  vector : List ℚ
  payload : Option MemoryItem
deriving DecidableEq

/-- Model of `VecDBItem` (`vecdb/item.py`): id, optional vector,
optional payload, optional score. -/
structure VecDBItem where
  id : String
  vector : Option (List ℚ)
  payload : Option MemoryItem
  score : Option ℚ
deriving DecidableEq

/-- Upsert one point: replace the entry with the same id, else append.
Modelled from the spec: `client.upsert` of the external engine (a keyed
store; a duplicate id overwrites). -/
def upsertOne (coll : List QPoint) (p : QPoint) : List QPoint :=
  match coll with
  | [] => [p]
  | x :: xs => if x.id = p.id then p :: xs else x :: upsertOne xs p

/-- Batch upsert, later points winning. -/
def upsertList (coll : List QPoint) : List QPoint → List QPoint
  | [] => coll
  | p :: ps => upsertList (upsertOne coll p) ps

/-- Model of `client.retrieve` for a single id. -/
def retrievePoint (coll : List QPoint) (pid : String) : Option QPoint :=
  coll.find? (fun p => p.id == pid)

/-- Payload field access for filter conditions.  The payload stored by
this system is always `item.model_dump()`, so the addressable fields
are the item's. Modelled from the spec: key-equality matching of the
external engine (`FieldCondition(key=..., match=MatchValue(...))`),
nested keys addressed by dotted paths. -/
def payloadGet (m : MemoryItem) (key : String) : Option String :=
  if key = "id" then some m.id
  else if key = "memory" then some m.memory
  else if key = "metadata.type" then m.metadata.type
  else if key = "metadata.source" then m.metadata.source
  else none

/-- One `FieldCondition`: the payload field equals the given value. -/
def matchesCond (m : MemoryItem) (kv : String × String) : Bool :=
  payloadGet m kv.1 == some kv.2

/-- Model of `Filter(must=conditions)` — the conjunction of all entries
(`QdrantVecDB._dict_to_filter`). -/
def matchesFilter (m : MemoryItem) (f : MetaFilter) : Bool :=
  f.all (fun kv => matchesCond m kv)

/-- A point passes an optional filter; a point with no payload fails
every non-trivial condition. -/
def pointPasses (p : QPoint) (f : Option MetaFilter) : Bool :=
  match f, p.payload with
  | none, _ => true
  | some fl, some m => matchesFilter m fl
  | some fl, none => fl.isEmpty

/-- Score-descending order on search results (`x.score or 0`). -/
def vScoreGe : VecDBItem → VecDBItem → Prop :=
  fun x y => y.score.getD 0 ≤ x.score.getD 0

instance : DecidableRel vScoreGe :=
  fun x y => inferInstanceAs (Decidable (y.score.getD 0 ≤ x.score.getD 0))

instance : IsTotal VecDBItem vScoreGe :=
  ⟨fun x y => le_total (y.score.getD 0) (x.score.getD 0)⟩

instance : IsTrans VecDBItem vScoreGe :=
  ⟨fun _ _ _ h h2 => le_trans h2 h⟩

/-- Model of `client.query_points(query, limit, query_filter)`.  Modelled from
the spec: the engine restricts to the filter's matches, scores each
candidate under the configured metric `sim`, and returns at most
`limit` ranked results (`QdrantVecDB.search` wraps them as
`VecDBItem`s). -/
def queryPoints (sim : List ℚ → List ℚ → ℚ) (coll : List QPoint)
    (query_vector : List ℚ) (top_k : ℕ) (f : Option MetaFilter) :
    List VecDBItem :=
  let cands := coll.filter (fun p => pointPasses p f)
  let scored := cands.map (fun p =>
    VecDBItem.mk p.id (some p.vector) p.payload (some (sim query_vector p.vector)))
  (List.insertionSort vScoreGe scored).take top_k

/-- Model of `client.set_payload`: replace the payload of the points with the
given id, touching nothing else (the payload written by `update` is a
full `model_dump`, so key-merging equals replacement here). -/
def setPayload (coll : List QPoint) (pid : String) (pl : Option MemoryItem) :
    List QPoint :=
  match coll with
  | [] => []
  | x :: xs =>
    if x.id = pid then { x with payload := pl } :: setPayload xs pid pl
    else x :: setPayload xs pid pl

/-- Model of `QdrantVecDB.update`: upsert when `data.vector` is truthy (present
and non-empty), else `set_payload`. -/
def dbUpdate (coll : List QPoint) (pid : String) (data : VecDBItem) :
    List QPoint :=
  match data.vector with
  | none => setPayload coll pid data.payload
  | some v =>
    if v = [] then setPayload coll pid data.payload
    else upsertOne coll ⟨pid, v, data.payload⟩

/-! ## The semantic backend (`VectorMemory`, `memory/vector.py`)

The state is the vector-store collection; the embedder
(`self.embedder`, an external capability) is passed to each operation
as a function `embed : String → List ℚ`, batch calls being
order-preserving maps of it. -/

structure VectorMemory where
  db : List QPoint
deriving DecidableEq

/-- The ids present in the collection. -/
def VectorMemory.dbIds (s : VectorMemory) : List String :=
  s.db.map (·.id)

/-- Model of `VectorMemory.add`: no duplicate check — embed every text, build
`(id, vector, payload)` triples and upsert them all; return every
submitted id. -/
def VectorMemory.add (embed : String → List ℚ) (s : VectorMemory)
    (memories : List MemoryItem) : List String × VectorMemory :=
  if memories = [] then ([], s)
  else
    let embeddings := (memories.map (·.memory)).map embed
    let points := (memories.zip embeddings).map
      (fun me => QPoint.mk me.1.id me.2 (some me.1))
    (memories.map (·.id), ⟨upsertList s.db points⟩)

/-- Model of `VectorMemory.get`: retrieve the point, return its payload item. -/
def VectorMemory.get (s : VectorMemory) (memory_id : String) : Option MemoryItem :=
  (retrievePoint s.db memory_id).bind (·.payload)

/-- Model of `VectorMemory.get_all`: scroll the whole collection, keeping
payload-bearing points. -/
def VectorMemory.get_all (s : VectorMemory) : List MemoryItem :=
  s.db.filterMap (·.payload)

/-- Model of `VectorMemory.update`: overwrite the record's id with `memory_id`,
re-embed the new text, and hand the `(memory_id, vector, payload)`
item to the store's update (an upsert when the vector is non-empty). -/
def VectorMemory.update (embed : String → List ℚ) (s : VectorMemory)
    (memory_id : String) (memory : MemoryItem) : VectorMemory :=
  let m := memory.setId memory_id
  let embedding := embed m.memory
  ⟨dbUpdate s.db memory_id ⟨memory_id, some embedding, some m, none⟩⟩

/-- Model of `VectorMemory.delete`. -/
def VectorMemory.delete (s : VectorMemory) (memory_ids : List String) :
    VectorMemory :=
  ⟨s.db.filter (fun p => !(memory_ids.contains p.id))⟩

/-- Model of `VectorMemory.delete_all`: recreate the collection. -/
def VectorMemory.delete_all (_s : VectorMemory) : VectorMemory := ⟨[]⟩

/-- Model of `VectorMemory.count`. -/
def VectorMemory.count (s : VectorMemory) : ℕ := s.db.length

/-- The ranked result list of `VectorMemory.search`: query the store,
then re-sort descending by `score or 0` (defensive re-sort). -/
def VectorMemory.searchRanked (embed : String → List ℚ)
    (sim : List ℚ → List ℚ → ℚ) (s : VectorMemory) (query : String)
    (top_k : ℕ) (f : Option MetaFilter) : List VecDBItem :=
  let query_embedding := embed query
  let results := queryPoints sim s.db query_embedding top_k f
  List.insertionSort vScoreGe results

/-- Model of `VectorMemory.search`: the ranked results' payloads, skipping
payload-less points. -/
def VectorMemory.search (embed : String → List ℚ)
    (sim : List ℚ → List ℚ → ℚ) (s : VectorMemory) (query : String)
    (top_k : ℕ) (f : Option MetaFilter) : List MemoryItem :=
  (VectorMemory.searchRanked embed sim s query top_k f).filterMap (·.payload)

/-- The semantic snapshot file: missing, unparseable (either
`json.JSONDecodeError` or a `VecDBItem.from_dict` validation failure —
both abort before anything is written), or a parsed item array. -/
inductive VSnapshotFile where
  | absent
  | malformed
  | wellformed (items : List VecDBItem)

/-- Result of `VectorMemory.load`, as `SLoadResult`. -/
structure VLoadResult where
  state : VectorMemory
  err : Option String
deriving DecidableEq

/-- A snapshot item as the point handed to `client.upsert`
(`PointStruct(id=item.id, vector=item.vector, payload=item.payload)`;
dumped items always carry a vector). -/
def VecDBItem.toPoint (it : VecDBItem) : QPoint :=
  ⟨it.id, it.vector.getD [], it.payload⟩

/-- Model of `VectorMemory.load`: a missing file logs and returns; malformed
content is caught and logged, the function returning normally; parsed
items are handed to `vector_db.add`, i.e. upserted — ids already
present are overwritten, not skipped. -/
def VectorMemory.load (s : VectorMemory) (file : VSnapshotFile) : VLoadResult :=
  match file with
  | .absent => ⟨s, none⟩
  | .malformed => ⟨s, none⟩
  | .wellformed items => ⟨⟨upsertList s.db (items.map VecDBItem.toPoint)⟩, none⟩

/-- Model of `VectorMemory.dump`: `get_all` the collection and serialize each
point as a `VecDBItem` (score absent). -/
def VectorMemory.dump (s : VectorMemory) : VSnapshotFile :=
  .wellformed (s.db.map (fun p => VecDBItem.mk p.id (some p.vector) p.payload none))

/-- The records a dedup-merge loop appends when started with the given
id set: first occurrences of ids not yet seen. Both `SimpleMemory.add`
and `SimpleMemory.load` reduce to it. -/
def newOnes (ids : List String) : List MemoryItem → List MemoryItem
  | [] => []
  | m :: rest =>
    if ids.contains m.id then newOnes ids rest
    else m :: newOnes (ids ++ [m.id]) rest

/-! ## Concrete fixtures used by witnesses and counterexamples

All ids are canonical version-4 UUID strings (they pass the
`uuid.UUID` validators of `item.py` / `vecdb/item.py`). -/

def uuidA : String := "00000000-0000-4000-8000-00000000000a"

def uuidB : String := "00000000-0000-4000-8000-00000000000b"

def uuidC : String := "00000000-0000-4000-8000-00000000000c"

/-- Metadata with the given type tag and creation/update instants. -/
def mkMeta (ty : Option String) (c u : Nat) : MemoryMetadata :=
  ⟨ty, some "conversation", none, c, u⟩

/-- First record of the spec's lexical example (§8). -/
def py1 : MemoryItem :=
  ⟨uuidA, "Python is great for ML and Python is versatile", mkMeta none 1 1⟩

/-- Second record of the spec's lexical example (§8). -/
def py2 : MemoryItem :=
  ⟨uuidB, "JavaScript is for web", mkMeta none 2 2⟩

/-- The spec example's store: exactly the two records, in order. -/
def pyState : SimpleMemory := ⟨[py1, py2]⟩

def pyTok1 : List String :=
  ["python", "is", "great", "for", "ml", "and", "python", "is", "versatile"]

def pyTok2 : List String := ["javascript", "is", "for", "web"]

def pyCorpus : List (List String) := [pyTok1, pyTok2]

/-- Records for the filter counterexample: three two-token texts, so
"apple" has a strictly positive idf. -/
def apple1 : MemoryItem := ⟨uuidA, "apple pie", mkMeta (some "y") 1 1⟩

def apple2 : MemoryItem := ⟨uuidB, "banana bread", mkMeta (some "x") 2 2⟩

def apple3 : MemoryItem := ⟨uuidC, "cherry cake", mkMeta (some "x") 3 3⟩

def appleState : SimpleMemory := ⟨[apple1, apple2, apple3]⟩

def apTok1 : List String := ["apple", "pie"]

def apTok2 : List String := ["banana", "bread"]

def apTok3 : List String := ["cherry", "cake"]

def apCorpus : List (List String) := [apTok1, apTok2, apTok3]

/-- A deterministic stand-in for the external embedder capability. -/
def embed1 : String → List ℚ := fun _ => [1]

/-- A trivial similarity metric for the external engine. -/
def sim1 : List ℚ → List ℚ → ℚ := fun _ _ => 1

def itemOld : MemoryItem := ⟨uuidA, "old text", mkMeta none 1 1⟩

def itemNew : MemoryItem := ⟨uuidA, "new text", mkMeta none 5 5⟩

def itemB : MemoryItem := ⟨uuidB, "b text", mkMeta none 3 3⟩

/-- A record whose `updated_at` equals the stored `apple1`'s. -/
def mStale : MemoryItem := ⟨uuidB, "stale text", mkMeta none 1 1⟩

/-- A freshly constructed record at clock 7 (both timestamps 7). -/
def mFresh : MemoryItem := ⟨uuidC, "rewritten", mkMeta none 7 7⟩

/-- One-record lexical store (record `apple1`, id `uuidA`). -/
def lexA : SimpleMemory := ⟨[apple1]⟩

/-- Empty semantic store. -/
def vm0 : VectorMemory := ⟨[]⟩

def pOld : QPoint := ⟨uuidA, [1], some itemOld⟩

/-- One-point semantic store holding `itemOld` under `uuidA`. -/
def vs5 : VectorMemory := ⟨[pOld]⟩

/-- Semantic store holding `apple2` (metadata type "x"). -/
def vsF : VectorMemory := ⟨[⟨uuidB, [1], some apple2⟩]⟩

/-- A snapshot item carrying `itemNew` under the already-present id. -/
def itNew5 : VecDBItem := ⟨uuidA, some [2], some itemNew, none⟩

/-! ## Lemmas about the lexical backend -/

theorem contains_iff_memId {l : List String} {a : String} :
    l.contains a = true ↔ a ∈ l :=
  List.elem_iff

theorem add_eq_newOnes : ∀ (ms : List MemoryItem) (s : SimpleMemory),
    SimpleMemory.add s ms =
      ((newOnes (s.memories.map (·.id)) ms).map (·.id),
        ⟨s.memories ++ newOnes (s.memories.map (·.id)) ms⟩)
  | [], s => by simp [SimpleMemory.add, newOnes]
  | m :: rest, s => by
    rw [SimpleMemory.add, newOnes]
    by_cases h : (s.memories.map (·.id)).contains m.id = true
    · rw [if_pos h, if_pos h, add_eq_newOnes rest s]
    · rw [if_neg h, if_neg h, add_eq_newOnes rest ⟨s.memories ++ [m]⟩]
      simp

theorem loadMerge_eq_newOnes : ∀ (items acc : List MemoryItem),
    loadMerge acc items = acc ++ newOnes (acc.map (·.id)) items
  | [], acc => by simp [loadMerge, newOnes]
  | m :: rest, acc => by
    rw [loadMerge, newOnes]
    by_cases h : (acc.map (·.id)).contains m.id = true
    · rw [if_pos h, if_pos h, loadMerge_eq_newOnes rest acc]
    · rw [if_neg h, if_neg h, loadMerge_eq_newOnes rest (acc ++ [m])]
      simp

theorem newOnes_id_not_mem : ∀ (ids : List String) (ms : List MemoryItem),
    ∀ m ∈ newOnes ids ms, m.id ∉ ids
  | ids, [], m, hm => by simp [newOnes] at hm
  | ids, x :: rest, m, hm => by
    rw [newOnes] at hm
    by_cases h : ids.contains x.id = true
    · rw [if_pos h] at hm
      exact newOnes_id_not_mem ids rest m hm
    · rw [if_neg h] at hm
      rcases List.mem_cons.mp hm with rfl | hm'
      · exact fun hx => h (contains_iff_memId.mpr hx)
      · intro hx
        exact newOnes_id_not_mem (ids ++ [x.id]) rest m hm'
          (List.mem_append_left _ hx)

theorem newOnes_sublist : ∀ (ids : List String) (ms : List MemoryItem),
    (newOnes ids ms).Sublist ms
  | _, [] => List.Sublist.refl _
  | ids, x :: rest => by
    rw [newOnes]
    by_cases h : ids.contains x.id = true
    · rw [if_pos h]
      exact (newOnes_sublist ids rest).cons x
    · rw [if_neg h]
      exact (newOnes_sublist (ids ++ [x.id]) rest).cons₂ x

theorem newOnes_ids_nodup : ∀ (ids : List String) (ms : List MemoryItem),
    ((newOnes ids ms).map (·.id)).Nodup
  | _, [] => by simp [newOnes]
  | ids, x :: rest => by
    rw [newOnes]
    by_cases h : ids.contains x.id = true
    · rw [if_pos h]
      exact newOnes_ids_nodup ids rest
    · rw [if_neg h]
      refine List.nodup_cons.mpr ⟨?_, newOnes_ids_nodup (ids ++ [x.id]) rest⟩
      intro hx
      rcases List.mem_map.mp hx with ⟨m, hm, hid⟩
      exact newOnes_id_not_mem _ _ m hm
        (hid ▸ List.mem_append_right _ (List.mem_singleton_self _))

theorem newOnes_of_disjoint : ∀ (ids : List String) (ms : List MemoryItem),
    (∀ m ∈ ms, m.id ∉ ids) → (ms.map (·.id)).Nodup → newOnes ids ms = ms
  | _, [], _, _ => rfl
  | ids, x :: rest, hdisj, hnd => by
    rw [List.map_cons, List.nodup_cons] at hnd
    rw [newOnes, if_neg]
    · rw [newOnes_of_disjoint (ids ++ [x.id]) rest]
      · intro m hm hmem
        rcases List.mem_append.mp hmem with h1 | h2
        · exact hdisj m (List.mem_cons_of_mem _ hm) h1
        · exact hnd.1 (List.mem_singleton.mp h2 ▸ List.mem_map_of_mem (·.id) hm)
      · exact hnd.2
    · intro hc
      exact hdisj x (List.mem_cons_self _ _) (contains_iff_memId.mp hc)

/-- Looking up an id that resolves inside the first part of an appended
list ignores the second part. -/
theorem find?_id_append : ∀ (l₁ l₂ : List MemoryItem) (i : String),
    i ∈ l₁.map (·.id) →
      (l₁ ++ l₂).find? (fun m => m.id == i) = l₁.find? (fun m => m.id == i)
  | [], _, i, h => by simp at h
  | x :: xs, l₂, i, h => by
    by_cases hx : x.id = i
    · simp [List.find?, hx]
    · have : i ∈ xs.map (·.id) := by
        rcases List.mem_map.mp h with ⟨m, hm, hid⟩
        rcases List.mem_cons.mp hm with rfl | hm'
        · exact absurd hid hx
        · exact hid ▸ List.mem_map_of_mem (·.id) hm'
      have hbeq : (x.id == i) = false := by
        simpa using hx
      simp only [List.cons_append, List.find?, hbeq]
      exact find?_id_append xs l₂ i this

theorem updateList_of_not_mem : ∀ (l : List MemoryItem) (i : String)
    (m : MemoryItem), i ∉ l.map (·.id) → updateList l i m = l
  | [], _, _, _ => rfl
  | x :: xs, i, m, h => by
    have hx : ¬ x.id = i := fun hxi => h (by simp [hxi])
    rw [updateList, if_neg hx, updateList_of_not_mem xs i m (fun hm => h (by simp [hm]))]

theorem updateList_map_id : ∀ (l : List MemoryItem) (i : String)
    (m : MemoryItem), m.id = i →
      (updateList l i m).map (·.id) = l.map (·.id)
  | [], _, _, _ => rfl
  | x :: xs, i, m, hm => by
    rw [updateList]
    by_cases hx : x.id = i
    · rw [if_pos hx]
      simp [hm, hx]
    · rw [if_neg hx]
      simp [updateList_map_id xs i m hm]

theorem find?_updateList_self : ∀ (l : List MemoryItem) (i : String)
    (m : MemoryItem), m.id = i → i ∈ l.map (·.id) →
      (updateList l i m).find? (fun x => x.id == i) = some m
  | [], _, _, _, h => by simp at h
  | x :: xs, i, m, hm, h => by
    rw [updateList]
    by_cases hx : x.id = i
    · rw [if_pos hx]
      simp [List.find?, hm]
    · rw [if_neg hx]
      have hbeq : (x.id == i) = false := by simpa using hx
      simp only [List.find?, hbeq]
      refine find?_updateList_self xs i m hm ?_
      rcases List.mem_map.mp h with ⟨y, hy, hid⟩
      rcases List.mem_cons.mp hy with rfl | hy'
      · exact absurd hid hx
      · exact hid ▸ List.mem_map_of_mem (·.id) hy'

theorem find?_updateList_ne : ∀ (l : List MemoryItem) (i j : String)
    (m : MemoryItem), m.id = i → j ≠ i →
      (updateList l i m).find? (fun x => x.id == j) =
        l.find? (fun x => x.id == j)
  | [], _, _, _, _, _ => rfl
  | x :: xs, i, j, m, hm, hj => by
    rw [updateList]
    by_cases hx : x.id = i
    · rw [if_pos hx]
      have h1 : (m.id == j) = false := by simpa [hm] using (Ne.symm hj)
      have h2 : (x.id == j) = false := by simpa [hx] using (Ne.symm hj)
      simp [List.find?, h1, h2]
    · rw [if_neg hx]
      simp only [List.find?]
      cases hxj : (x.id == j) with
      | true => rfl
      | false => exact find?_updateList_ne xs i j m hm hj

/-! ## Lemmas about the modelled vector store -/

theorem retrieve_upsertOne_self : ∀ (coll : List QPoint) (p : QPoint),
    retrievePoint (upsertOne coll p) p.id = some p
  | [], p => by simp [upsertOne, retrievePoint, List.find?]
  | x :: xs, p => by
    rw [upsertOne]
    by_cases hx : x.id = p.id
    · rw [if_pos hx]
      simp [retrievePoint, List.find?]
    · rw [if_neg hx]
      have hbeq : (x.id == p.id) = false := by simpa using hx
      simp only [retrievePoint, List.find?, hbeq]
      exact retrieve_upsertOne_self xs p

theorem retrieve_upsertOne_ne : ∀ (coll : List QPoint) (p : QPoint)
    (j : String), j ≠ p.id →
      retrievePoint (upsertOne coll p) j = retrievePoint coll j
  | [], p, j, hj => by
    have : (p.id == j) = false := by simpa using (fun h => hj h.symm)
    simp [upsertOne, retrievePoint, List.find?, this]
  | x :: xs, p, j, hj => by
    rw [upsertOne]
    by_cases hx : x.id = p.id
    · rw [if_pos hx]
      have h1 : (p.id == j) = false := by simpa using (fun h => hj h.symm)
      have h2 : (x.id == j) = false := by
        simpa [hx] using (fun h => hj h.symm)
      simp [retrievePoint, List.find?, h1, h2]
    · rw [if_neg hx]
      simp only [retrievePoint, List.find?]
      cases hxj : (x.id == j) with
      | true => rfl
      | false => exact retrieve_upsertOne_ne xs p j hj

theorem ids_upsertOne : ∀ (coll : List QPoint) (p : QPoint),
    (upsertOne coll p).map (·.id) =
      if p.id ∈ coll.map (·.id) then coll.map (·.id)
      else coll.map (·.id) ++ [p.id]
  | [], p => by simp [upsertOne]
  | x :: xs, p => by
    rw [upsertOne]
    by_cases hx : x.id = p.id
    · rw [if_pos hx]
      simp [hx]
    · rw [if_neg hx]
      have hne : ¬ p.id = x.id := fun h => hx h.symm
      simp only [List.map_cons, ids_upsertOne xs p, List.mem_cons, hne,
        false_or]
      by_cases hmem : p.id ∈ xs.map (·.id)
      · simp [hmem]
      · simp [hmem]

theorem length_upsertOne : ∀ (coll : List QPoint) (p : QPoint),
    (upsertOne coll p).length =
      coll.length + (if p.id ∈ coll.map (·.id) then 0 else 1)
  | [], p => by simp [upsertOne]
  | x :: xs, p => by
    rw [upsertOne]
    by_cases hx : x.id = p.id
    · rw [if_pos hx]
      simp [hx]
    · rw [if_neg hx]
      have hne : ¬ p.id = x.id := fun h => hx h.symm
      simp only [List.length_cons, length_upsertOne xs p, List.map_cons,
        List.mem_cons, hne, false_or]
      by_cases hmem : p.id ∈ xs.map (·.id)
      · simp [hmem]
      · simp [hmem, Nat.add_comm, Nat.add_assoc, Nat.add_left_comm]

theorem nodup_ids_upsertOne (coll : List QPoint) (p : QPoint)
    (h : (coll.map (·.id)).Nodup) : ((upsertOne coll p).map (·.id)).Nodup := by
  rw [ids_upsertOne]
  by_cases hmem : p.id ∈ coll.map (·.id)
  · simpa [hmem] using h
  · rw [if_neg hmem]
    simpa [List.nodup_append, hmem] using h

theorem mem_ids_upsertOne {coll : List QPoint} {p : QPoint} {j : String}
    (h : j ∈ (upsertOne coll p).map (·.id)) :
    j ∈ coll.map (·.id) ∨ j = p.id := by
  rw [ids_upsertOne] at h
  by_cases hmem : p.id ∈ coll.map (·.id)
  · rw [if_pos hmem] at h
    exact Or.inl h
  · rw [if_neg hmem] at h
    rcases List.mem_append.mp h with h1 | h2
    · exact Or.inl h1
    · exact Or.inr (List.mem_singleton.mp h2)

theorem ids_mem_upsertOne {coll : List QPoint} {p : QPoint} {j : String}
    (h : j ∈ coll.map (·.id)) : j ∈ (upsertOne coll p).map (·.id) := by
  rw [ids_upsertOne]
  by_cases hmem : p.id ∈ coll.map (·.id)
  · simpa [hmem] using h
  · rw [if_neg hmem]
    exact List.mem_append_left _ h

theorem retrieve_upsertList_not_mem : ∀ (pts coll : List QPoint) (j : String),
    j ∉ pts.map (·.id) →
      retrievePoint (upsertList coll pts) j = retrievePoint coll j
  | [], _, _, _ => rfl
  | p :: ps, coll, j, hj => by
    rw [upsertList]
    have hne : j ≠ p.id := fun h => hj (by simp [h])
    rw [retrieve_upsertList_not_mem ps (upsertOne coll p) j
      (fun h => hj (by simp [h]))]
    exact retrieve_upsertOne_ne coll p j hne

theorem ids_mem_upsertList : ∀ (pts coll : List QPoint) (j : String),
    j ∈ coll.map (·.id) → j ∈ (upsertList coll pts).map (·.id)
  | [], _, _, h => h
  | p :: ps, coll, j, h => by
    rw [upsertList]
    exact ids_mem_upsertList ps (upsertOne coll p) j (ids_mem_upsertOne h)

theorem mem_ids_upsertList : ∀ (pts coll : List QPoint) (j : String),
    j ∈ (upsertList coll pts).map (·.id) →
      j ∈ coll.map (·.id) ∨ j ∈ pts.map (·.id)
  | [], _, _, h => Or.inl h
  | p :: ps, coll, j, h => by
    rw [upsertList] at h
    rcases mem_ids_upsertList ps (upsertOne coll p) j h with h1 | h2
    · rcases mem_ids_upsertOne h1 with h3 | h4
      · exact Or.inl h3
      · exact Or.inr (by simp [h4])
    · exact Or.inr (by simp [h2])

theorem nodup_ids_upsertList : ∀ (pts coll : List QPoint),
    (coll.map (·.id)).Nodup → ((upsertList coll pts).map (·.id)).Nodup
  | [], _, h => h
  | p :: ps, coll, h => by
    rw [upsertList]
    exact nodup_ids_upsertList ps (upsertOne coll p) (nodup_ids_upsertOne coll p h)

theorem upsertList_of_disjoint : ∀ (pts coll : List QPoint),
    (∀ p ∈ pts, p.id ∉ coll.map (·.id)) → (pts.map (·.id)).Nodup →
      upsertList coll pts = coll ++ pts
  | [], coll, _, _ => by simp [upsertList]
  | p :: ps, coll, hdisj, hnd => by
    rw [List.map_cons, List.nodup_cons] at hnd
    have hup : upsertOne coll p = coll ++ [p] := by
      clear hnd
      have hp := hdisj p (List.mem_cons_self _ _)
      induction coll with
      | nil => simp [upsertOne]
      | cons x xs ih =>
        rw [upsertOne, if_neg (fun h => hp (by simp [h]))]
        rw [ih (fun m hm h => hdisj m hm (by simp [h]))
          (fun h => hp (by simp [h]))]
        simp
    rw [upsertList, hup, upsertList_of_disjoint ps (coll ++ [p])]
    · simp
    · intro m hm hmem
      rw [List.map_append] at hmem
      rcases List.mem_append.mp hmem with h1 | h2
      · exact hdisj m (List.mem_cons_of_mem _ hm) h1
      · exact hnd.1
          ((List.mem_singleton.mp (by simpa using h2)) ▸
            List.mem_map_of_mem (·.id) hm)
    · exact hnd.2

theorem retrieve_setPayload_ne : ∀ (coll : List QPoint) (pid j : String)
    (pl : Option MemoryItem), j ≠ pid →
      retrievePoint (setPayload coll pid pl) j = retrievePoint coll j
  | [], _, _, _, _ => rfl
  | x :: xs, pid, j, pl, hj => by
    rw [setPayload]
    by_cases hx : x.id = pid
    · rw [if_pos hx]
      have h2 : (x.id == j) = false := by
        simpa [hx] using (fun h => hj h.symm)
      simp only [retrievePoint, List.find?, h2]
      exact retrieve_setPayload_ne xs pid j pl hj
    · rw [if_neg hx]
      simp only [retrievePoint, List.find?]
      cases hxj : (x.id == j) with
      | true => rfl
      | false => exact retrieve_setPayload_ne xs pid j pl hj

theorem ids_setPayload : ∀ (coll : List QPoint) (pid : String)
    (pl : Option MemoryItem),
      (setPayload coll pid pl).map (·.id) = coll.map (·.id)
  | [], _, _ => rfl
  | x :: xs, pid, pl => by
    rw [setPayload]
    by_cases hx : x.id = pid
    · rw [if_pos hx]
      simp [ids_setPayload xs pid pl, hx]
    · rw [if_neg hx]
      simp [ids_setPayload xs pid pl]

/-! ## BM25 scoring lemmas -/

/-- A term that occurs in no token of a document contributes nothing
to its score; a query all of whose terms are absent scores `0`. -/
theorem bm25Score_eq_zero_of_disjoint (corpus : List (List String))
    (queryTokens docTokens : List String)
    (h : ∀ t ∈ queryTokens, t ∉ docTokens) :
    bm25Score corpus queryTokens docTokens = 0 := by
  unfold bm25Score
  refine List.sum_eq_zero ?_
  intro x hx
  rcases List.mem_map.mp hx with ⟨q, hq, rfl⟩
  have hcnt : docTokens.count q = 0 := by
    rw [List.count_eq_zero]
    exact h q hq
  unfold termWeight
  rw [hcnt]
  push_cast
  rw [zero_mul, zero_div, mul_zero]

/-- In the two-document example, "python" occurs in exactly one of the
two documents, so its raw Okapi idf is `log 1.5 - log 1.5 = 0`. -/
theorem idfRaw_py : idfRaw pyCorpus "python" = 0 := by
  unfold idfRaw
  have h1 : corpusSize pyCorpus = 2 := by decide
  have h2 : ndocs pyCorpus "python" = 1 := by decide
  rw [h1, h2]
  norm_num

theorem idfOkapi_py : idfOkapi pyCorpus "python" = 0 := by
  unfold idfOkapi
  rw [idfRaw_py, if_neg (lt_irrefl 0)]

theorem idfLookup_py : idfLookup pyCorpus "python" = 0 := by
  unfold idfLookup
  rw [if_pos (by decide), idfOkapi_py]

theorem bm25Score_py1 : bm25Score pyCorpus ["python"] pyTok1 = 0 := by
  unfold bm25Score
  simp [idfLookup_py]

theorem bm25Score_py2 : bm25Score pyCorpus ["python"] pyTok2 = 0 := by
  refine bm25Score_eq_zero_of_disjoint _ _ _ ?_
  decide

/-- The `scored` list of the example is empty: the only record that
mentions "python" scores exactly `0` and the `score > 0` cut drops it. -/
theorem scoredList_py : SimpleMemory.scoredList pyState "Python" = [] := by
  have hmap : pyState.memories.map (fun m => tokenize m.memory) = pyCorpus := by
    decide
  have hq : tokenize "Python" = ["python"] := by decide
  unfold SimpleMemory.scoredList
  rw [hmap, hq]
  have hmem : pyState.memories = [py1, py2] := rfl
  rw [hmem]
  show (List.filter _ (List.zip _ (pyCorpus.map _))) = []
  rw [show pyCorpus.map (fun d => bm25Score pyCorpus ["python"] d) =
      [bm25Score pyCorpus ["python"] pyTok1,
        bm25Score pyCorpus ["python"] pyTok2] from rfl]
  rw [bm25Score_py1, bm25Score_py2]
  simp [List.zip, List.filter, decide_eq_false (lt_irrefl (0 : ℝ))]

theorem searchRanked_py :
    SimpleMemory.searchRanked pyState "Python" 5 = [] := by
  unfold SimpleMemory.searchRanked
  rw [if_neg (by decide), scoredList_py]
  rfl

/-- The concrete behaviour of the spec's §8 lexical example:
`search("Python")` over the two records returns the empty list. -/
theorem search_py :
    SimpleMemory.search pyState "Python" 5 none = [] := by
  unfold SimpleMemory.search
  rw [searchRanked_py]
  rfl

theorem idfRaw_apple :
    idfRaw apCorpus "apple" = Real.log 2.5 - Real.log 1.5 := by
  unfold idfRaw
  have h1 : corpusSize apCorpus = 3 := by decide
  have h2 : ndocs apCorpus "apple" = 1 := by decide
  rw [h1, h2]
  norm_num

theorem idfRaw_apple_pos : 0 < idfRaw apCorpus "apple" := by
  rw [idfRaw_apple]
  have := Real.log_lt_log (by norm_num : (0 : ℝ) < 1.5)
    (by norm_num : (1.5 : ℝ) < 2.5)
  linarith

theorem idfLookup_apple :
    idfLookup apCorpus "apple" = idfRaw apCorpus "apple" := by
  unfold idfLookup idfOkapi
  rw [if_pos (by decide), if_neg (not_lt.mpr (le_of_lt idfRaw_apple_pos))]

theorem avgdl_apple : avgdl apCorpus = 2 := by
  unfold avgdl
  have h1 : (apCorpus.map List.length).sum = 6 := by decide
  have h2 : corpusSize apCorpus = 3 := by decide
  rw [h1, h2]
  norm_num

theorem termWeight_apple : termWeight apCorpus apTok1 "apple" = 1 := by
  unfold termWeight
  rw [avgdl_apple]
  have h1 : apTok1.count "apple" = 1 := by decide
  have h2 : apTok1.length = 2 := by decide
  rw [h1, h2]
  unfold bm25_k1 bm25_b
  norm_num

theorem bm25Score_ap1 :
    bm25Score apCorpus ["apple"] apTok1 = idfRaw apCorpus "apple" := by
  unfold bm25Score
  simp [idfLookup_apple, termWeight_apple]

theorem bm25Score_ap2 : bm25Score apCorpus ["apple"] apTok2 = 0 :=
  bm25Score_eq_zero_of_disjoint _ _ _ (by decide)

theorem bm25Score_ap3 : bm25Score apCorpus ["apple"] apTok3 = 0 :=
  bm25Score_eq_zero_of_disjoint _ _ _ (by decide)

theorem scoredList_apple :
    SimpleMemory.scoredList appleState "apple" =
      [(apple1, idfRaw apCorpus "apple")] := by
  have hmap : appleState.memories.map (fun m => tokenize m.memory) = apCorpus := by
    decide
  have hq : tokenize "apple" = ["apple"] := by decide
  unfold SimpleMemory.scoredList
  rw [hmap, hq]
  have hmem : appleState.memories = [apple1, apple2, apple3] := rfl
  rw [hmem]
  show (List.filter _ (List.zip _ (apCorpus.map _))) = _
  rw [show apCorpus.map (fun d => bm25Score apCorpus ["apple"] d) =
      [bm25Score apCorpus ["apple"] apTok1,
        bm25Score apCorpus ["apple"] apTok2,
        bm25Score apCorpus ["apple"] apTok3] from rfl]
  rw [bm25Score_ap1, bm25Score_ap2, bm25Score_ap3]
  simp [List.zip, List.filter, decide_eq_false (lt_irrefl (0 : ℝ)),
    decide_eq_true idfRaw_apple_pos]

theorem searchRanked_apple :
    SimpleMemory.searchRanked appleState "apple" 5 =
      [(apple1, idfRaw apCorpus "apple")] := by
  unfold SimpleMemory.searchRanked
  rw [if_neg (by decide), scoredList_apple]
  rfl

/-- The lexical backend returns the "apple" record for any supplied
filter — the filter argument is ignored by `SimpleMemory.search`. -/
theorem search_apple (f : Option MetaFilter) :
    SimpleMemory.search appleState "apple" 5 f = [apple1] := by
  unfold SimpleMemory.search
  rw [searchRanked_apple]
  rfl

/-! ## Stability of the descending sort

`scored.sort(key=lambda x: x[1], reverse=True)` is stable; so is
`List.insertionSort scoreGeR`: the records of any fixed score keep
their pre-sort (insertion) order. -/

theorem filter_eq_orderedInsert_scoreGe (x : MemoryItem × ℝ)
    (L : List (MemoryItem × ℝ)) (c : ℝ) :
    (List.orderedInsert scoreGeR x L).filter (fun p => decide (p.2 = c)) =
      if x.2 = c then x :: L.filter (fun p => decide (p.2 = c))
      else L.filter (fun p => decide (p.2 = c)) := by
  induction L with
  | nil =>
    by_cases hx : x.2 = c
    · simp [List.orderedInsert, List.filter, hx]
    · simp [List.orderedInsert, List.filter, hx]
  | cons b bs ih =>
    rw [List.orderedInsert]
    by_cases hr : scoreGeR x b
    · rw [if_pos hr]
      by_cases hx : x.2 = c
      · simp [List.filter_cons, hx]
      · simp [List.filter_cons, hx]
    · rw [if_neg hr]
      have hlt : x.2 < b.2 := lt_of_not_le hr
      by_cases hx : x.2 = c
      · have hb : ¬ b.2 = c := fun hbc => absurd (hx ▸ hbc ▸ hlt) (lt_irrefl _)
        rw [List.filter_cons, if_neg (by simp [hb]), ih, if_pos hx, if_pos hx,
          List.filter_cons, if_neg (by simp [hb])]
      · rw [List.filter_cons, ih, if_neg hx, if_neg hx, List.filter_cons]

/-- Sorting never reorders the entries of any one score class. -/
theorem insertionSort_scoreGe_stable (l : List (MemoryItem × ℝ)) (c : ℝ) :
    (List.insertionSort scoreGeR l).filter (fun p => decide (p.2 = c)) =
      l.filter (fun p => decide (p.2 = c)) := by
  induction l with
  | nil => rfl
  | cons x xs ih =>
    rw [List.insertionSort, filter_eq_orderedInsert_scoreGe, ih,
      List.filter_cons]
    by_cases hx : x.2 = c
    · rw [if_pos hx, if_pos (by simpa using hx)]
    · rw [if_neg hx, if_neg (by simpa using hx)]

/-! ## Generic facts about the lexical search pipeline -/

/-- Every ranked result survived the `score > 0` cut. -/
theorem searchRanked_pos (s : SimpleMemory) (query : String) (top_k : ℕ)
    (p : MemoryItem × ℝ) (hp : p ∈ s.searchRanked query top_k) : 0 < p.2 := by
  unfold SimpleMemory.searchRanked at hp
  by_cases he : s.memories.isEmpty
  · rw [if_pos he] at hp
    simp at hp
  · rw [if_neg he] at hp
    have h1 : p ∈ List.insertionSort scoreGeR (s.scoredList query) :=
      (List.take_sublist _ _).subset hp
    have h2 : p ∈ s.scoredList query :=
      (List.mem_insertionSort scoreGeR).mp h1
    unfold SimpleMemory.scoredList at h2
    exact of_decide_eq_true (List.mem_filter.mp h2).2

/-- A query sharing no token with any record returns nothing. -/
theorem search_eq_nil_of_disjoint (s : SimpleMemory) (query : String)
    (top_k : ℕ) (f : Option MetaFilter)
    (h : ∀ t ∈ tokenize query, ∀ m ∈ s.memories, t ∉ tokenize m.memory) :
    s.search query top_k f = [] := by
  have hsc : s.scoredList query = [] := by
    unfold SimpleMemory.scoredList
    rw [List.filter_eq_nil_iff]
    intro p hp
    have hzip := List.of_mem_zip hp
    rcases List.mem_map.mp hzip.2 with ⟨d, hd, hscore⟩
    rcases List.mem_map.mp hd with ⟨m, hm, hdm⟩
    have : p.2 = 0 := by
      rw [← hscore, ← hdm]
      exact bm25Score_eq_zero_of_disjoint _ _ _
        (fun t ht => h t ht m hm)
    simp [this]
  unfold SimpleMemory.search SimpleMemory.searchRanked
  by_cases he : s.memories.isEmpty
  · rw [if_pos he]
    rfl
  · rw [if_neg he, hsc]
    simp

/-- The ranked results are at most `top_k` many and their scores are
non-increasing. -/
theorem searchRanked_bounded_sorted (s : SimpleMemory) (query : String)
    (top_k : ℕ) :
    (s.searchRanked query top_k).length ≤ top_k ∧
      ((s.searchRanked query top_k).map Prod.snd).Sorted (· ≥ ·) := by
  unfold SimpleMemory.searchRanked
  by_cases he : s.memories.isEmpty
  · rw [if_pos he]
    exact ⟨Nat.zero_le _, List.sorted_nil⟩
  · rw [if_neg he]
    constructor
    · exact List.length_take_le _ _
    · have hs : (List.insertionSort scoreGeR (s.scoredList query)).Sorted scoreGeR :=
        List.sorted_insertionSort scoreGeR _
      have ht : ((List.insertionSort scoreGeR (s.scoredList query)).take top_k).Pairwise scoreGeR :=
        hs.sublist (List.take_sublist _ _)
      exact List.pairwise_map.mpr ht

/-! ## Generic facts about the semantic search pipeline -/

/-- The semantic results are at most `top_k` many and their scores are
non-increasing after the defensive re-sort. -/
theorem vsearch_bounded_sorted (embed : String → List ℚ)
    (sim : List ℚ → List ℚ → ℚ) (s : VectorMemory) (query : String)
    (top_k : ℕ) (f : Option MetaFilter) :
    (VectorMemory.search embed sim s query top_k f).length ≤ top_k ∧
      ((VectorMemory.searchRanked embed sim s query top_k f).map
        (fun r => r.score.getD 0)).Sorted (· ≥ ·) := by
  constructor
  · unfold VectorMemory.search VectorMemory.searchRanked queryPoints
    calc (List.filterMap _ _).length
        ≤ (List.insertionSort vScoreGe
            (queryPoints sim s.db (embed query) top_k f)).length :=
          List.length_filterMap_le _ _
      _ = (queryPoints sim s.db (embed query) top_k f).length := by
          rw [List.length_insertionSort]
      _ ≤ top_k := by
          unfold queryPoints
          exact List.length_take_le _ _
  · have hs : (VectorMemory.searchRanked embed sim s query top_k f).Sorted vScoreGe := by
      unfold VectorMemory.searchRanked
      exact List.sorted_insertionSort vScoreGe _
    exact List.pairwise_map.mpr hs

/-- Every record coming back from a filtered semantic search satisfies
every entry of the filter: the modelled engine restricts the candidate
set before ranking and nothing downstream adds records. -/
theorem vsearch_matches_filter (embed : String → List ℚ)
    (sim : List ℚ → List ℚ → ℚ) (s : VectorMemory) (query : String)
    (top_k : ℕ) (fl : MetaFilter) (m : MemoryItem)
    (hm : m ∈ VectorMemory.search embed sim s query top_k (some fl)) :
    matchesFilter m fl = true := by
  unfold VectorMemory.search VectorMemory.searchRanked at hm
  rcases List.mem_filterMap.mp hm with ⟨it, hit, hpl⟩
  have hit2 : it ∈ queryPoints sim s.db (embed query) top_k (some fl) :=
    (List.mem_insertionSort vScoreGe).mp hit
  unfold queryPoints at hit2
  have hit3 := (List.take_sublist _ _).subset hit2
  have hit4 := (List.mem_insertionSort vScoreGe).mp hit3
  rcases List.mem_map.mp hit4 with ⟨p, hp, rfl⟩
  have hpass : pointPasses p (some fl) = true := (List.mem_filter.mp hp).2
  unfold pointPasses at hpass
  cases hpp : p.payload with
  | none =>
    rw [hpp] at hpl
    cases hpl
  | some m2 =>
    rw [hpp] at hpl hpass
    cases hpl
    exact hpass

/-! ## Claims -/

/-- C2 (amended).  Lexical search discards every record whose BM25
score is zero or negative — in particular a query sharing no token
with any record returns the empty list, and ties are broken by
insertion order (the descending sort is stable) — but on the spec's
two-record example `search("Python")` returns the empty list, not the
first record: "python" occurs in exactly one of the two documents, so
its Okapi idf is `log 1.5 - log 1.5 = 0` and the only matching record
is cut by the `score > 0` filter. -/
theorem c2_lexical_zero_cut :
    (∀ (s : SimpleMemory) (q : String) (k : ℕ) (p : MemoryItem × ℝ),
        p ∈ s.searchRanked q k → 0 < p.2) ∧
    (∀ (s : SimpleMemory) (q : String) (k : ℕ) (f : Option MetaFilter),
        (∀ t ∈ tokenize q, ∀ m ∈ s.memories, t ∉ tokenize m.memory) →
          s.search q k f = []) ∧
    SimpleMemory.search pyState "Python" 5 none = [] ∧
    (∀ (s : SimpleMemory) (q : String) (c : ℝ),
        (List.insertionSort scoreGeR (s.scoredList q)).filter
            (fun p => decide (p.2 = c)) =
          (s.scoredList q).filter (fun p => decide (p.2 = c))) :=
  ⟨searchRanked_pos, search_eq_nil_of_disjoint, search_py,
    fun s q c => insertionSort_scoreGe_stable (s.scoredList q) c⟩

/-- C2 witness: the positive-score guarantee exercised on the "apple"
store, and the no-overlap guarantee exercised on the query "zebra". -/
theorem c2_lexical_zero_cut_witness :
    ((apple1, idfRaw apCorpus "apple") ∈
        SimpleMemory.searchRanked appleState "apple" 5 ∧
      0 < idfRaw apCorpus "apple") ∧
    ((∀ t ∈ tokenize "zebra", ∀ m ∈ appleState.memories,
        t ∉ tokenize m.memory) ∧
      SimpleMemory.search appleState "zebra" 5 none = []) := by
  have hmem : (apple1, idfRaw apCorpus "apple") ∈
      SimpleMemory.searchRanked appleState "apple" 5 := by
    rw [searchRanked_apple]
    exact List.mem_singleton_self _
  have hdis : ∀ t ∈ tokenize "zebra", ∀ m ∈ appleState.memories,
      t ∉ tokenize m.memory := by decide
  exact ⟨⟨hmem, c2_lexical_zero_cut.1 appleState "apple" 5 _ hmem⟩,
    ⟨hdis, c2_lexical_zero_cut.2.1 appleState "zebra" 5 none hdis⟩⟩

/-- C2 counterexample: on the spec's own two-record example the
lexical search does not return the first record (it returns `[]`). -/
theorem c2_lexical_zero_cut_cex :
    SimpleMemory.search pyState "Python" 5 none ≠ [py1] := by
  rw [search_py]
  simp

/-- C3 (amended).  The semantic backend restricts candidates to the
filter's matches before ranking, so no returned record violates any
filter entry; the lexical backend accepts a filter through `**kwargs`
and ignores it — its results are identical with and without one. -/
theorem c3_filter_restricts :
    (∀ (embed : String → List ℚ) (sim : List ℚ → List ℚ → ℚ)
        (s : VectorMemory) (q : String) (k : ℕ) (fl : MetaFilter)
        (m : MemoryItem),
        m ∈ VectorMemory.search embed sim s q k (some fl) →
          matchesFilter m fl = true) ∧
    (∀ (s : SimpleMemory) (q : String) (k : ℕ) (f : Option MetaFilter),
        s.search q k f = s.search q k none) :=
  ⟨vsearch_matches_filter, fun _ _ _ _ => rfl⟩

/-- C3 witness: a filtered semantic search on a concrete store returns
`apple2`, which indeed matches the filter. -/
theorem c3_filter_restricts_witness :
    apple2 ∈ VectorMemory.search embed1 sim1 vsF "q" 5
        (some [("metadata.type", "x")]) ∧
      matchesFilter apple2 [("metadata.type", "x")] = true := by
  have hmem : apple2 ∈ VectorMemory.search embed1 sim1 vsF "q" 5
      (some [("metadata.type", "x")]) := by decide
  exact ⟨hmem,
    c3_filter_restricts.1 embed1 sim1 vsF "q" 5 [("metadata.type", "x")]
      apple2 hmem⟩

/-- C3 counterexample: the lexical backend returns `apple1` (metadata
type "y") for a search filtered on `metadata.type = "x"` — the filter
is ignored, so the claim fails for the lexical backend. -/
theorem c3_filter_restricts_cex :
    apple1 ∈ SimpleMemory.search appleState "apple" 5
        (some [("metadata.type", "x")]) ∧
      matchesFilter apple1 [("metadata.type", "x")] = false := by
  constructor
  · rw [search_apple]
    exact List.mem_singleton_self _
  · decide

/-- C6 (amended).  Malformed snapshot content is caught inside `load`
for both backends: the call returns normally with the state unchanged
and surfaces no error to the caller (it is only logged) — it neither
lets the parse exception escape nor reports a structured error. -/
theorem c6_malformed_swallowed :
    (∀ s : SimpleMemory, s.load .malformed = ⟨s, none⟩) ∧
    (∀ vs : VectorMemory, vs.load .malformed = ⟨vs, none⟩) :=
  ⟨fun _ => rfl, fun _ => rfl⟩

/-- C6 counterexample: on a malformed snapshot both backends return
success (`err = none`, state untouched), contradicting the claim that
a structured error is surfaced to the caller. -/
theorem c6_malformed_swallowed_cex :
    (SimpleMemory.load lexA .malformed).err = none ∧
      (SimpleMemory.load lexA .malformed).state = lexA ∧
      (VectorMemory.load vs5 .malformed).err = none ∧
      (VectorMemory.load vs5 .malformed).state = vs5 :=
  ⟨rfl, rfl, rfl, rfl⟩

/-- C8 (confirmed).  For both backends a `search(q, top_k = k)` returns
at most `k` records, and the ranked pipeline is ordered by score
non-increasing. -/
theorem c8_topk_bound_sorted :
    (∀ (s : SimpleMemory) (q : String) (k : ℕ) (f : Option MetaFilter),
        (s.search q k f).length ≤ k) ∧
    (∀ (s : SimpleMemory) (q : String) (k : ℕ),
        ((s.searchRanked q k).map Prod.snd).Sorted (· ≥ ·)) ∧
    (∀ (embed : String → List ℚ) (sim : List ℚ → List ℚ → ℚ)
        (vs : VectorMemory) (q : String) (k : ℕ) (f : Option MetaFilter),
        (VectorMemory.search embed sim vs q k f).length ≤ k) ∧
    (∀ (embed : String → List ℚ) (sim : List ℚ → List ℚ → ℚ)
        (vs : VectorMemory) (q : String) (k : ℕ) (f : Option MetaFilter),
        ((VectorMemory.searchRanked embed sim vs q k f).map
          (fun r => r.score.getD 0)).Sorted (· ≥ ·)) := by
  refine ⟨?_, ?_, ?_, ?_⟩
  · intro s q k f
    have h := (searchRanked_bounded_sorted s q k).1
    unfold SimpleMemory.search
    simpa using h
  · intro s q k
    exact (searchRanked_bounded_sorted s q k).2
  · intro embed sim vs q k f
    exact (vsearch_bounded_sorted embed sim vs q k f).1
  · intro embed sim vs q k f
    exact (vsearch_bounded_sorted embed sim vs q k f).2

/-! ## Further helper lemmas -/

/-- A record found after `delete` was already stored before it:
`delete` only removes entries. -/
theorem find?_filter_delete : ∀ (l : List MemoryItem) (del : List String)
    (i : String) (m : MemoryItem),
    (l.filter (fun x => !(del.contains x.id))).find? (fun x => x.id == i) =
        some m →
      l.find? (fun x => x.id == i) = some m
  | [], _, _, _, h => by simp [List.filter] at h
  | x :: xs, del, i, m, h => by
    by_cases hk : del.contains x.id = true
    · rw [List.filter_cons_of_neg
        (by simp only [hk, Bool.not_true]; exact Bool.false_ne_true)] at h
      have hm := List.find?_some h
      have hmID : m.id = i := by simpa using hm
      have hmKeep : (del.contains m.id) = false := by
        have := (List.mem_filter.mp (List.mem_of_find?_eq_some h)).2
        simpa using this
      have hxne : x.id ≠ i := by
        intro hxid
        have hci : del.contains i = true := hxid ▸ hk
        rw [hmID] at hmKeep
        rw [hmKeep] at hci
        cases hci
      have hxi : (x.id == i) = false := beq_eq_false_iff_ne.mpr hxne
      rw [List.find?, hxi]
      exact find?_filter_delete xs del i m h
    · have hk2 : (del.contains x.id) = false := by simpa using hk
      rw [List.filter_cons_of_pos (by simp only [hk2, Bool.not_false])] at h
      rw [List.find?] at h ⊢
      cases hxi : (x.id == i) with
      | true => rw [hxi] at h; exact h
      | false => rw [hxi] at h; exact find?_filter_delete xs del i m h

/-- The points built by `VectorMemory.add` carry exactly the submitted
ids, in order. -/
theorem points_map_id (embed : String → List ℚ) :
    ∀ ms : List MemoryItem,
      ((ms.zip ((ms.map (·.memory)).map embed)).map
        (fun me => QPoint.mk me.1.id me.2 (some me.1))).map (·.id) =
        ms.map (·.id)
  | [] => rfl
  | m :: rest => by
    simp only [List.map_cons, List.zip_cons_cons]
    rw [points_map_id embed rest]

/-- Adding a single record via `VectorMemory.add` is one upsert. -/
theorem vadd_single (embed : String → List ℚ) (vs : VectorMemory)
    (m : MemoryItem) :
    (VectorMemory.add embed vs [m]).2.db =
      upsertOne vs.db ⟨m.id, embed m.memory, some m⟩ :=
  rfl

/-! ## Claim C1 -/

/-- C1 (amended).  Lexical backend as claimed: a duplicate id inserts
nothing and is omitted from the returned ids, which are exactly the
inserted ids in submission order, and `count` grows by their number.
Semantic backend: `add` returns every submitted id (duplicates are not
omitted) and a duplicate id overwrites the stored record (upsert)
while `count` still only grows by the number of genuinely new ids. -/
theorem c1_add_dedup :
    (∀ (s : SimpleMemory) (ms : List MemoryItem) (i : String),
        i ∈ s.ids → (s.add ms).2.get i = s.get i) ∧
    (∀ (s : SimpleMemory) (ms : List MemoryItem),
        (s.add ms).1.Sublist (ms.map (·.id))) ∧
    (∀ (s : SimpleMemory) (ms : List MemoryItem) (m : MemoryItem),
        m ∈ ms → m.id ∈ s.ids → m.id ∉ (s.add ms).1) ∧
    (∀ (s : SimpleMemory) (ms : List MemoryItem),
        (s.add ms).2.count = s.count + (s.add ms).1.length) ∧
    (∀ (s : SimpleMemory) (ms : List MemoryItem) (i : String),
        i ∈ (s.add ms).2.ids ↔ i ∈ s.ids ∨ i ∈ (s.add ms).1) ∧
    (∀ (embed : String → List ℚ) (vs : VectorMemory) (ms : List MemoryItem),
        (VectorMemory.add embed vs ms).1 = ms.map (·.id)) ∧
    (∀ (embed : String → List ℚ) (vs : VectorMemory) (m : MemoryItem),
        m.id ∈ vs.dbIds →
          (VectorMemory.add embed vs [m]).2.count = vs.count ∧
          (VectorMemory.add embed vs [m]).2.get m.id = some m) := by
  refine ⟨?_, ?_, ?_, ?_, ?_, ?_, ?_⟩
  · intro s ms i hi
    rw [add_eq_newOnes]
    show (s.memories ++ newOnes (s.memories.map (·.id)) ms).find? _ =
      s.memories.find? _
    exact find?_id_append _ _ _ hi
  · intro s ms
    rw [add_eq_newOnes]
    exact (newOnes_sublist _ ms).map (·.id)
  · intro s ms m hm hid hmem
    rw [add_eq_newOnes] at hmem
    rcases List.mem_map.mp hmem with ⟨x, hx, hxid⟩
    exact newOnes_id_not_mem _ _ x hx (by rw [hxid]; exact hid)
  · intro s ms
    rw [add_eq_newOnes]
    simp [SimpleMemory.count]
  · intro s ms i
    rw [add_eq_newOnes]
    simp [SimpleMemory.ids]
  · intro embed vs ms
    unfold VectorMemory.add
    by_cases h : ms = []
    · simp [h]
    · rw [if_neg h]
  · intro embed vs m hmid
    constructor
    · show (VectorMemory.add embed vs [m]).2.db.length = vs.db.length
      rw [vadd_single, length_upsertOne]
      have hmid2 : m.id ∈ List.map (fun x => x.id) vs.db := hmid
      show vs.db.length + (if m.id ∈ List.map (fun x => x.id) vs.db then 0 else 1) =
        vs.db.length
      rw [if_pos hmid2]
      exact Nat.add_zero _
    · show (retrievePoint (VectorMemory.add embed vs [m]).2.db m.id).bind
        (·.payload) = some m
      rw [vadd_single]
      have h : retrievePoint (upsertOne vs.db ⟨m.id, embed m.memory, some m⟩)
          m.id = some ⟨m.id, embed m.memory, some m⟩ :=
        retrieve_upsertOne_self vs.db ⟨m.id, embed m.memory, some m⟩
      rw [h]
      rfl

/-- C1 witness: the lexical guarantees exercised on a one-record store
with a duplicate-and-new batch; the semantic overwrite on a one-point
store. -/
theorem c1_add_dedup_witness :
    (uuidA ∈ lexA.ids ∧
      (lexA.add [itemNew, itemB]).2.get uuidA = lexA.get uuidA) ∧
    (itemNew ∈ [itemNew, itemB] ∧ uuidA ∈ lexA.ids ∧
      uuidA ∉ (lexA.add [itemNew, itemB]).1) ∧
    (uuidA ∈ vs5.dbIds ∧
      (VectorMemory.add embed1 vs5 [itemNew]).2.count = vs5.count ∧
      (VectorMemory.add embed1 vs5 [itemNew]).2.get uuidA = some itemNew) := by
  have h1 : uuidA ∈ lexA.ids := by decide
  have h2 : itemNew ∈ [itemNew, itemB] := by decide
  have h3 : uuidA ∈ vs5.dbIds := by decide
  refine ⟨⟨h1, c1_add_dedup.1 lexA [itemNew, itemB] uuidA h1⟩,
    ⟨h2, h1, c1_add_dedup.2.2.1 lexA [itemNew, itemB] itemNew h2 h1⟩,
    ⟨h3, (c1_add_dedup.2.2.2.2.2.2 embed1 vs5 itemNew h3).1,
      (c1_add_dedup.2.2.2.2.2.2 embed1 vs5 itemNew h3).2⟩⟩

/-- C1 counterexample: the semantic backend, with `uuidA` already
stored, returns the duplicate id from `add` instead of omitting it and
overwrites the stored record (the old text is replaced). -/
theorem c1_add_dedup_cex :
    uuidA ∈ vs5.dbIds ∧
      (VectorMemory.add embed1 vs5 [itemNew]).1 = [uuidA] ∧
      VectorMemory.get vs5 uuidA = some itemOld ∧
      (VectorMemory.add embed1 vs5 [itemNew]).2.get uuidA = some itemNew := by
  decide

/-! ## Claim C4 -/

/-- C4 (amended).  Lexical backend: `update` of a missing id leaves the
state unchanged and does not raise; on an existing id the stored
record becomes the supplied record with its id overwritten — `get(id)`
returns the new text, and the stored `updated_at` is the supplied
record's value verbatim (it strictly increases only when the supplied
record carries a larger one, as a freshly constructed record does).
Semantic backend: `update` upserts — on an existing id it replaces the
record, on a missing id it inserts it (`count` grows by one), not a
no-op. -/
theorem c4_update_semantics :
    (∀ (s : SimpleMemory) (i : String) (m : MemoryItem),
        i ∉ s.ids → s.update i m = s) ∧
    (∀ (s : SimpleMemory) (i : String) (m : MemoryItem),
        i ∈ s.ids → (s.update i m).get i = some (m.setId i)) ∧
    (∀ (s : SimpleMemory) (i : String) (m : MemoryItem),
        i ∈ s.ids →
          ((s.update i m).get i).map (·.memory) = some m.memory ∧
          ((s.update i m).get i).map (·.metadata.updated_at) =
            some m.metadata.updated_at) ∧
    (∀ (embed : String → List ℚ) (vs : VectorMemory) (i : String)
        (m : MemoryItem), embed m.memory ≠ [] →
        (VectorMemory.update embed vs i m).get i = some (m.setId i) ∧
        (VectorMemory.update embed vs i m).count =
          vs.count + (if i ∈ vs.dbIds then 0 else 1)) := by
  refine ⟨?_, ?_, ?_, ?_⟩
  · intro s i m hi
    show (⟨updateList s.memories i (m.setId i)⟩ : SimpleMemory) = s
    rw [updateList_of_not_mem s.memories i (m.setId i) hi]
  · intro s i m hi
    exact find?_updateList_self s.memories i (m.setId i) rfl hi
  · intro s i m hi
    have h := find?_updateList_self s.memories i (m.setId i) rfl hi
    constructor
    · show ((s.update i m).get i).map (·.memory) = some m.memory
      rw [show (s.update i m).get i =
        (updateList s.memories i (m.setId i)).find? (fun x => x.id == i)
        from rfl, h]
      rfl
    · rw [show (s.update i m).get i =
        (updateList s.memories i (m.setId i)).find? (fun x => x.id == i)
        from rfl, h]
      rfl
  · intro embed vs i m hv
    have hdb : (VectorMemory.update embed vs i m).db =
        upsertOne vs.db ⟨i, embed m.memory, some (m.setId i)⟩ := by
      unfold VectorMemory.update dbUpdate
      simp only [MemoryItem.setId]
      rw [if_neg hv]
    constructor
    · show (retrievePoint (VectorMemory.update embed vs i m).db i).bind
        (·.payload) = some (m.setId i)
      rw [hdb]
      have h : retrievePoint
          (upsertOne vs.db ⟨i, embed m.memory, some (m.setId i)⟩) i =
          some ⟨i, embed m.memory, some (m.setId i)⟩ :=
        retrieve_upsertOne_self vs.db ⟨i, embed m.memory, some (m.setId i)⟩
      rw [h]
      rfl
    · show (VectorMemory.update embed vs i m).db.length =
        vs.db.length + (if i ∈ vs.dbIds then 0 else 1)
      rw [hdb, length_upsertOne]
      rfl

/-- C4 witness: the no-op on a missing lexical id, the replacement on
an existing one, and the semantic upsert, all at concrete stores. -/
theorem c4_update_semantics_witness :
    (uuidB ∉ lexA.ids ∧ lexA.update uuidB itemB = lexA) ∧
    (uuidA ∈ lexA.ids ∧
      (lexA.update uuidA itemB).get uuidA = some (itemB.setId uuidA)) ∧
    (embed1 itemB.memory ≠ [] ∧
      (VectorMemory.update embed1 vs5 uuidA itemB).get uuidA =
        some (itemB.setId uuidA) ∧
      (VectorMemory.update embed1 vs5 uuidA itemB).count =
        vs5.count + (if uuidA ∈ vs5.dbIds then 0 else 1)) := by
  have h1 : uuidB ∉ lexA.ids := by decide
  have h2 : uuidA ∈ lexA.ids := by decide
  have h3 : embed1 itemB.memory ≠ [] := by decide
  exact ⟨⟨h1, c4_update_semantics.1 lexA uuidB itemB h1⟩,
    ⟨h2, c4_update_semantics.2.1 lexA uuidA itemB h2⟩,
    ⟨h3, (c4_update_semantics.2.2.2 embed1 vs5 uuidA itemB h3).1,
      (c4_update_semantics.2.2.2 embed1 vs5 uuidA itemB h3).2⟩⟩

/-- C4 counterexample: updating with a record whose `updated_at`
equals the stored one leaves `updated_at` unchanged (not strictly
greater), and the semantic `update` of a non-existent id inserts a
record instead of being a no-op. -/
theorem c4_update_semantics_cex :
    ((lexA.update uuidA mStale).get uuidA).map (·.metadata.updated_at) =
        some 1 ∧
      (lexA.get uuidA).map (·.metadata.updated_at) = some 1 ∧
      uuidA ∉ vm0.dbIds ∧
      (VectorMemory.update embed1 vm0 uuidA itemOld).count = 1 ∧
      vm0.count = 0 := by
  decide

/-! ## Claim C5 -/

/-- C5 (amended).  Both backends: a missing snapshot file is a logged
no-op, and `load` never removes an existing record.  Lexical backend:
snapshot records whose id is already present are skipped (existing
records are untouched).  Semantic backend: the snapshot is upserted,
so a snapshot record whose id is already present replaces the stored
record instead of being skipped. -/
theorem c5_load_merge :
    (∀ s : SimpleMemory, s.load .absent = ⟨s, none⟩) ∧
    (∀ (s : SimpleMemory) (items : List MemoryItem) (i : String),
        i ∈ s.ids →
          (s.load (.wellformed items)).state.get i = s.get i) ∧
    (∀ (s : SimpleMemory) (items : List MemoryItem) (i : String),
        i ∈ s.ids → i ∈ (s.load (.wellformed items)).state.ids) ∧
    (∀ vs : VectorMemory, vs.load .absent = ⟨vs, none⟩) ∧
    (∀ (vs : VectorMemory) (items : List VecDBItem) (j : String),
        j ∈ vs.dbIds → j ∈ (vs.load (.wellformed items)).state.dbIds) ∧
    (∀ (vs : VectorMemory) (it : VecDBItem),
        it.id ∈ vs.dbIds →
          (vs.load (.wellformed [it])).state.get it.id = it.payload) := by
  refine ⟨fun _ => rfl, ?_, ?_, fun _ => rfl, ?_, ?_⟩
  · intro s items i hi
    show (loadMerge s.memories items).find? _ = s.memories.find? _
    rw [loadMerge_eq_newOnes]
    exact find?_id_append _ _ _ hi
  · intro s items i hi
    show i ∈ (loadMerge s.memories items).map (·.id)
    rw [loadMerge_eq_newOnes, List.map_append]
    exact List.mem_append_left _ hi
  · intro vs items j hj
    show j ∈ (upsertList vs.db (items.map VecDBItem.toPoint)).map (·.id)
    exact ids_mem_upsertList _ vs.db j hj
  · intro vs it _
    show (retrievePoint (upsertOne vs.db it.toPoint) it.id).bind
      (·.payload) = it.payload
    have h : retrievePoint (upsertOne vs.db it.toPoint) it.id =
        some it.toPoint :=
      retrieve_upsertOne_self vs.db it.toPoint
    rw [h]
    rfl

/-- C5 witness: the lexical skip and presence guarantees, and the
semantic overwrite, at concrete stores. -/
theorem c5_load_merge_witness :
    (uuidA ∈ lexA.ids ∧
      (lexA.load (.wellformed [itemNew])).state.get uuidA = lexA.get uuidA ∧
      uuidA ∈ (lexA.load (.wellformed [itemNew])).state.ids) ∧
    (uuidA ∈ vs5.dbIds ∧
      uuidA ∈ (vs5.load (.wellformed [itNew5])).state.dbIds ∧
      (vs5.load (.wellformed [itNew5])).state.get uuidA = itNew5.payload) := by
  have h1 : uuidA ∈ lexA.ids := by decide
  have h2 : uuidA ∈ vs5.dbIds := by decide
  have h3 : itNew5.id ∈ vs5.dbIds := by decide
  exact ⟨⟨h1, c5_load_merge.2.1 lexA [itemNew] uuidA h1,
      c5_load_merge.2.2.1 lexA [itemNew] uuidA h1⟩,
    ⟨h2, c5_load_merge.2.2.2.2.1 vs5 [itNew5] uuidA h2,
      c5_load_merge.2.2.2.2.2 vs5 itNew5 h3⟩⟩

/-- C5 counterexample: the semantic `load` overwrites the record
already stored under `uuidA` with the snapshot's record, instead of
skipping it. -/
theorem c5_load_merge_cex :
    uuidA ∈ vs5.dbIds ∧
      VectorMemory.get vs5 uuidA = some itemOld ∧
      (vs5.load (.wellformed [itNew5])).state.get uuidA = some itemNew := by
  decide

/-! ## Claim C7 -/

/-- Evaluating `dbUpdate` when the supplied item has no vector. -/
theorem dbUpdate_none (coll : List QPoint) (pid : String) (data : VecDBItem)
    (h : data.vector = none) :
    dbUpdate coll pid data = setPayload coll pid data.payload := by
  unfold dbUpdate
  rw [h]

/-- Evaluating `dbUpdate` when the supplied item carries a vector. -/
theorem dbUpdate_some (coll : List QPoint) (pid : String) (data : VecDBItem)
    (v : List ℚ) (h : data.vector = some v) :
    dbUpdate coll pid data =
      if v = [] then setPayload coll pid data.payload
      else upsertOne coll ⟨pid, v, data.payload⟩ := by
  unfold dbUpdate
  rw [h]

/-- An update via `dbUpdate` introduces no id other than the one it targets. -/
theorem mem_ids_dbUpdate (coll : List QPoint) (pid : String)
    (data : VecDBItem) (j : String)
    (hj : j ∈ (dbUpdate coll pid data).map (·.id)) :
    j ∈ coll.map (·.id) ∨ j = pid := by
  cases hd : data.vector with
  | none =>
    rw [dbUpdate_none coll pid data hd, ids_setPayload] at hj
    exact Or.inl hj
  | some v =>
    rw [dbUpdate_some coll pid data v hd] at hj
    by_cases hv : v = []
    · rw [if_pos hv, ids_setPayload] at hj
      exact Or.inl hj
    · rw [if_neg hv] at hj
      exact mem_ids_upsertOne hj

/-- An update via `dbUpdate` preserves id uniqueness. -/
theorem nodup_ids_dbUpdate (coll : List QPoint) (pid : String)
    (data : VecDBItem) (h : (coll.map (·.id)).Nodup) :
    ((dbUpdate coll pid data).map (·.id)).Nodup := by
  cases hd : data.vector with
  | none =>
    rw [dbUpdate_none coll pid data hd, ids_setPayload]
    exact h
  | some v =>
    rw [dbUpdate_some coll pid data v hd]
    by_cases hv : v = []
    · rw [if_pos hv, ids_setPayload]
      exact h
    · rw [if_neg hv]
      exact nodup_ids_upsertOne coll _ h

/-- C7 (amended).  A stored record's `created_at` / `updated_at` change
only when the stored record itself is replaced wholesale: by `update`
(both backends, taking the supplied record's timestamps verbatim) or,
on the semantic backend, by a duplicate-id upsert.  No other operation
touches a surviving record: lexical `add` and `load` skip existing
ids, `delete` only removes, updates of one id leave every other id's
record intact, and semantic `add` leaves every id outside the batch
intact. -/
theorem c7_created_at :
    (∀ (s : SimpleMemory) (ms : List MemoryItem) (i : String),
        i ∈ s.ids → (s.add ms).2.get i = s.get i) ∧
    (∀ (s : SimpleMemory) (del : List String) (i : String) (m : MemoryItem),
        (s.delete del).get i = some m → s.get i = some m) ∧
    (∀ (s : SimpleMemory) (items : List MemoryItem) (i : String),
        i ∈ s.ids → (s.load (.wellformed items)).state.get i = s.get i) ∧
    (∀ (s : SimpleMemory) (i j : String) (m : MemoryItem),
        j ≠ i → (s.update i m).get j = s.get j) ∧
    (∀ (s : SimpleMemory) (i : String) (m : MemoryItem),
        i ∈ s.ids →
          ((s.update i m).get i).map (·.metadata.created_at) =
            some m.metadata.created_at) ∧
    (∀ (embed : String → List ℚ) (vs : VectorMemory) (ms : List MemoryItem)
        (j : String), j ∉ ms.map (·.id) →
        (VectorMemory.add embed vs ms).2.get j = vs.get j) ∧
    (∀ (embed : String → List ℚ) (vs : VectorMemory) (i j : String)
        (m : MemoryItem), j ≠ i →
        (VectorMemory.update embed vs i m).get j = vs.get j) := by
  refine ⟨?_, ?_, ?_, ?_, ?_, ?_, ?_⟩
  · intro s ms i hi
    rw [add_eq_newOnes]
    show (s.memories ++ newOnes (s.memories.map (·.id)) ms).find? _ =
      s.memories.find? _
    exact find?_id_append _ _ _ hi
  · intro s del i m h
    exact find?_filter_delete s.memories del i m h
  · intro s items i hi
    show (loadMerge s.memories items).find? _ = s.memories.find? _
    rw [loadMerge_eq_newOnes]
    exact find?_id_append _ _ _ hi
  · intro s i j m hj
    exact find?_updateList_ne s.memories i j (m.setId i) rfl hj
  · intro s i m hi
    have h := find?_updateList_self s.memories i (m.setId i) rfl hi
    show ((updateList s.memories i (m.setId i)).find?
      (fun x => x.id == i)).map (·.metadata.created_at) = _
    rw [h]
    rfl
  · intro embed vs ms j hj
    unfold VectorMemory.add
    by_cases h : ms = []
    · rw [if_pos h]
    · rw [if_neg h]
      have hj2 : j ∉ ((ms.zip ((ms.map (·.memory)).map embed)).map
          (fun me => QPoint.mk me.1.id me.2 (some me.1))).map (·.id) := by
        rw [points_map_id]
        exact hj
      show (retrievePoint (upsertList vs.db _) j).bind (·.payload) =
        (retrievePoint vs.db j).bind (·.payload)
      rw [retrieve_upsertList_not_mem _ _ _ hj2]
  · intro embed vs i j m hj
    show (retrievePoint (dbUpdate vs.db i
        ⟨i, some (embed (m.setId i).memory), some (m.setId i), none⟩) j).bind
        (·.payload) =
      (retrievePoint vs.db j).bind (·.payload)
    unfold dbUpdate
    simp only
    by_cases hv : embed (m.setId i).memory = []
    · rw [if_pos hv, retrieve_setPayload_ne _ _ _ _ hj]
    · rw [if_neg hv, retrieve_upsertOne_ne _ _ _ hj]

/-- C7 witness: every preservation clause exercised on the concrete
one-record stores. -/
theorem c7_created_at_witness :
    (uuidA ∈ lexA.ids ∧ (lexA.add [itemB]).2.get uuidA = lexA.get uuidA) ∧
    ((lexA.delete [uuidB]).get uuidA = some apple1 ∧
      lexA.get uuidA = some apple1) ∧
    (uuidA ∈ lexA.ids ∧
      (lexA.load (.wellformed [itemB])).state.get uuidA = lexA.get uuidA) ∧
    (uuidB ≠ uuidA ∧ (lexA.update uuidA itemB).get uuidB = lexA.get uuidB) ∧
    (uuidA ∈ lexA.ids ∧
      ((lexA.update uuidA mFresh).get uuidA).map (·.metadata.created_at) =
        some mFresh.metadata.created_at) ∧
    (uuidA ∉ [itemB].map (·.id) ∧
      (VectorMemory.add embed1 vs5 [itemB]).2.get uuidA = vs5.get uuidA) ∧
    (uuidA ≠ uuidB ∧
      (VectorMemory.update embed1 vs5 uuidB itemB).get uuidA =
        vs5.get uuidA) := by
  have h1 : uuidA ∈ lexA.ids := by decide
  have h2 : (lexA.delete [uuidB]).get uuidA = some apple1 := by decide
  have h3 : uuidB ≠ uuidA := by decide
  have h4 : uuidA ∉ [itemB].map (·.id) := by decide
  have h5 : uuidA ≠ uuidB := by decide
  exact ⟨⟨h1, c7_created_at.1 lexA [itemB] uuidA h1⟩,
    ⟨h2, c7_created_at.2.1 lexA [uuidB] uuidA apple1 h2⟩,
    ⟨h1, c7_created_at.2.2.1 lexA [itemB] uuidA h1⟩,
    ⟨h3, c7_created_at.2.2.2.1 lexA uuidA uuidB itemB h3⟩,
    ⟨h1, c7_created_at.2.2.2.2.1 lexA uuidA mFresh h1⟩,
    ⟨h4, c7_created_at.2.2.2.2.2.1 embed1 vs5 [itemB] uuidA h4⟩,
    ⟨h5, c7_created_at.2.2.2.2.2.2 embed1 vs5 uuidB uuidA itemB h5⟩⟩

/-- C7 counterexample: updating with a freshly constructed record
replaces the stored `created_at` (1 becomes 7) — `created_at` is not
immutable under `update`, contradicting the claim. -/
theorem c7_created_at_cex :
    (lexA.get uuidA).map (·.metadata.created_at) = some 1 ∧
      ((lexA.update uuidA mFresh).get uuidA).map (·.metadata.created_at) =
        some 7 ∧
      ((lexA.update uuidA mFresh).get uuidA).map (·.metadata.created_at) ≠
        (lexA.get uuidA).map (·.metadata.created_at) := by
  decide

/-! ## Claim C9 -/

/-- Dump followed by `from_dict`/`PointStruct` reconstruction is the
identity on stored points. -/
theorem toPoint_roundtrip : ∀ l : List QPoint,
    ((l.map (fun p => VecDBItem.mk p.id (some p.vector) p.payload none)).map
      VecDBItem.toPoint) = l
  | [] => rfl
  | p :: ps => by
    rw [List.map_cons, List.map_cons, toPoint_roundtrip ps]
    rfl

/-- C9 (confirmed).  For each backend with unique ids, `dump` followed
by `load` into a freshly constructed empty backend reproduces the
store: equal `count()` and equal `get_all()` content. -/
theorem c9_roundtrip :
    (∀ s : SimpleMemory, s.ids.Nodup →
        (SimpleMemory.load ⟨[]⟩ s.dump).state.count = s.count ∧
        (SimpleMemory.load ⟨[]⟩ s.dump).state.get_all = s.get_all) ∧
    (∀ vs : VectorMemory, vs.dbIds.Nodup →
        (VectorMemory.load ⟨[]⟩ vs.dump).state.count = vs.count ∧
        (VectorMemory.load ⟨[]⟩ vs.dump).state.get_all = vs.get_all) := by
  constructor
  · intro s h
    have hstate : (SimpleMemory.load ⟨[]⟩ s.dump).state = ⟨s.memories⟩ := by
      show (⟨loadMerge [] s.memories⟩ : SimpleMemory) = _
      rw [loadMerge_eq_newOnes]
      simp only [List.map_nil]
      rw [newOnes_of_disjoint [] s.memories
        (fun m _ hm => List.not_mem_nil _ hm) h, List.nil_append]
    exact ⟨by rw [hstate], by rw [hstate]⟩
  · intro vs h
    have hstate : (VectorMemory.load ⟨[]⟩ vs.dump).state = ⟨vs.db⟩ := by
      show (⟨upsertList []
        ((vs.db.map (fun p =>
          VecDBItem.mk p.id (some p.vector) p.payload none)).map
            VecDBItem.toPoint)⟩ : VectorMemory) = _
      rw [toPoint_roundtrip]
      rw [upsertList_of_disjoint vs.db []
        (fun p _ hp => absurd hp (by simp)) h,
        List.nil_append]
    exact ⟨by rw [hstate], by rw [hstate]⟩

/-- C9 witness: the round trip at the concrete three-record lexical
store and the one-point semantic store. -/
theorem c9_roundtrip_witness :
    (appleState.ids.Nodup ∧
      (SimpleMemory.load ⟨[]⟩ appleState.dump).state.count =
        appleState.count ∧
      (SimpleMemory.load ⟨[]⟩ appleState.dump).state.get_all =
        appleState.get_all) ∧
    (vs5.dbIds.Nodup ∧
      (VectorMemory.load ⟨[]⟩ vs5.dump).state.count = vs5.count ∧
      (VectorMemory.load ⟨[]⟩ vs5.dump).state.get_all = vs5.get_all) := by
  have h1 : appleState.ids.Nodup := by decide
  have h2 : vs5.dbIds.Nodup := by decide
  exact ⟨⟨h1, (c9_roundtrip.1 appleState h1).1, (c9_roundtrip.1 appleState h1).2⟩,
    ⟨h2, (c9_roundtrip.2 vs5 h2).1, (c9_roundtrip.2 vs5 h2).2⟩⟩

/-! ## Claim C10 -/

/-- C10 (confirmed).  Both `update`s overwrite the supplied record's id
with the `memory_id` argument before storing: the result is
independent of the record's own id, the lexical id list is unchanged,
the semantic store gains at most the id `memory_id`, id uniqueness is
preserved, and the record stored under `memory_id` carries that id. -/
theorem c10_update_identity :
    (∀ (s : SimpleMemory) (i v : String) (m : MemoryItem),
        s.update i m = s.update i { m with id := v }) ∧
    (∀ (s : SimpleMemory) (i : String) (m : MemoryItem),
        (s.update i m).ids = s.ids) ∧
    (∀ (s : SimpleMemory) (i : String) (m : MemoryItem),
        s.ids.Nodup → (s.update i m).ids.Nodup) ∧
    (∀ (s : SimpleMemory) (i : String) (m : MemoryItem),
        i ∈ s.ids → (s.update i m).get i = some (m.setId i)) ∧
    (∀ (embed : String → List ℚ) (vs : VectorMemory) (i v : String)
        (m : MemoryItem),
        VectorMemory.update embed vs i m =
          VectorMemory.update embed vs i { m with id := v }) ∧
    (∀ (embed : String → List ℚ) (vs : VectorMemory) (i j : String)
        (m : MemoryItem),
        j ∈ (VectorMemory.update embed vs i m).dbIds →
          j ∈ vs.dbIds ∨ j = i) ∧
    (∀ (embed : String → List ℚ) (vs : VectorMemory) (i : String)
        (m : MemoryItem),
        vs.dbIds.Nodup → (VectorMemory.update embed vs i m).dbIds.Nodup) := by
  refine ⟨?_, ?_, ?_, ?_, ?_, ?_, ?_⟩
  · intro s i v m
    rfl
  · intro s i m
    exact updateList_map_id s.memories i (m.setId i) rfl
  · intro s i m h
    show ((updateList s.memories i (m.setId i)).map (·.id)).Nodup
    rw [updateList_map_id s.memories i (m.setId i) rfl]
    exact h
  · intro s i m hi
    exact find?_updateList_self s.memories i (m.setId i) rfl hi
  · intro embed vs i v m
    rfl
  · intro embed vs i j m hj
    have hj2 : j ∈ (dbUpdate vs.db i
        ⟨i, some (embed (m.setId i).memory), some (m.setId i), none⟩).map
          (·.id) := hj
    exact mem_ids_dbUpdate vs.db i _ j hj2
  · intro embed vs i m h
    show ((dbUpdate vs.db i
      ⟨i, some (embed (m.setId i).memory), some (m.setId i), none⟩).map
        (·.id)).Nodup
    exact nodup_ids_dbUpdate vs.db i _ h

/-- C10 witness: uniqueness preservation and the stored-id guarantee
at concrete stores on both backends. -/
theorem c10_update_identity_witness :
    (lexA.ids.Nodup ∧ (lexA.update uuidA itemB).ids.Nodup) ∧
    (uuidA ∈ lexA.ids ∧
      (lexA.update uuidA itemB).get uuidA = some (itemB.setId uuidA)) ∧
    (uuidB ∈ (VectorMemory.update embed1 vs5 uuidB itemB).dbIds ∧
      (uuidB ∈ vs5.dbIds ∨ uuidB = uuidB)) ∧
    (vs5.dbIds.Nodup ∧
      (VectorMemory.update embed1 vs5 uuidB itemB).dbIds.Nodup) := by
  have h1 : lexA.ids.Nodup := by decide
  have h2 : uuidA ∈ lexA.ids := by decide
  have h3 : uuidB ∈ (VectorMemory.update embed1 vs5 uuidB itemB).dbIds := by
    decide
  have h4 : vs5.dbIds.Nodup := by decide
  exact ⟨⟨h1, c10_update_identity.2.2.1 lexA uuidA itemB h1⟩,
    ⟨h2, c10_update_identity.2.2.2.1 lexA uuidA itemB h2⟩,
    ⟨h3, c10_update_identity.2.2.2.2.2.1 embed1 vs5 uuidB uuidB itemB h3⟩,
    ⟨h4, c10_update_identity.2.2.2.2.2.2 embed1 vs5 uuidB itemB h4⟩⟩

end MemoVault
